import Mathlib

/-
  Verification development for the task queue + bounded worker-pool
  orchestrator of the cuckoo-modified sandbox.

  Shallow embedding of:
  - src/lib/cuckoo/core/database.py  (the minimal Task store: class Task,
    class Database with _set_status / add / fetch / complete / process / view)
  - src/utils/process.py             (the per-task pipeline function process,
    its MongoDB blob-cleanup block, and the autoprocess scheduling loop)

  Conventions:
  - datetimes are modelled as Nat ticks;
  - machine integers of the storage layer are modelled as Int / Nat (no
    overflow is relevant to any claimed property);
  - a Python exception escaping a call is modelled with Except / an Option
    PyErr component; the storage "commit" that can fail is modelled by an
    explicit commitOk : Bool oracle argument;
  - MongoDB collections are lists of records; remove / GridFS delete drop
    every record with the given id (ids are primary keys in MongoDB).
-/

/-- A Python exception kind, as far as the embedded code can raise one. -/
inductive PyErr where
  | attributeError (msg : String)
  | nameError (name : String)
deriving DecidableEq

/- ===================================================================
   Task store: src/lib/cuckoo/core/database.py
   =================================================================== -/

/-- The single datetime.now() value captured when the body of class Task is
evaluated (database.py line 40: added_on = Column(..., default=datetime.now())
calls now() once at class-definition time; the resulting constant is the
column default for every subsequent insert). -/
def addedOnDefault : Nat := 0

/-- One row of the tasks table (class Task, database.py lines 26-42).
Named TaskRow because Task is taken by the Lean core library.  The column
added_on defaults to addedOnDefault, status to "pending"; the declared
status enum is statusEnumDeclared below.  (The Python-side attribute
task.lock assigned in Database.complete is not a column and is never
persisted, so it is not part of the row.) -/
structure TaskRow where
  id : Nat
  md5 : Option String
  file_path : String
  timeout : Int
  priority : Int
  custom : Option String
  machine : Option String
  package : Option String
  options : Option String
  platform : Option String
  added_on : Nat
  completed_on : Option Nat
  status : String
deriving DecidableEq

/-- The status enum declared on the status column (database.py line 42). -/
def statusEnumDeclared : List String := ["pending", "processing", "failure", "success"]

/-- The tasks table, in rowid (insertion) order. -/
abbrev Store : Type := List TaskRow

namespace Database

/-- The ids present in the store. -/
def taskIds (st : Store) : List Nat := st.map (·.id)

/-- Autoincrement primary key: one more than the largest id ever present. -/
def nextId (st : Store) : Nat := (taskIds st).foldr max 0 + 1

/-- Database._set_status (database.py lines 104-118).
session.query(Task).get(task_id) returns None when the id is absent, and the
attribute assignment .status = status on None raises an AttributeError
*before* the try/except around commit; on a commit failure the call rolls
back and returns False. -/
def _set_status (commitOk : Bool) (task_id : Nat) (status : String) (st : Store) :
    Except PyErr (Bool × Store) :=
  match st.find? (fun t => t.id == task_id) with
  | none => .error (.attributeError "NoneType has no attribute status")
  | some _ =>
    if commitOk then
      .ok (true, st.map (fun t => if t.id == task_id then { t with status := status } else t))
    else
      .ok (false, st)

/-- The arguments of Database.add (database.py lines 120-129) together with
the commit outcome and the os.path.exists answer for file_path.  The source
defaults are md5=None, timeout=0, package=None, options=None, priority=1,
custom=None, machine=None, platform=None. -/
structure AddArgs where
  commitOk : Bool
  fsOk : Bool
  file_path : String
  md5 : Option String
  timeout : Int
  package : Option String
  options : Option String
  priority : Int
  custom : Option String
  machine : Option String
  platform : Option String
deriving DecidableEq

/-- AddArgs with every optional parameter left at the defaults of the
signature of Database.add. -/
def defaultAddArgs (commitOk fsOk : Bool) (path : String) : AddArgs :=
  { commitOk := commitOk, fsOk := fsOk, file_path := path, md5 := none,
    timeout := 0, package := none, options := none, priority := 1,
    custom := none, machine := none, platform := none }

/-- The row inserted by Database.add for the given arguments: every column
is taken from the arguments, added_on falls back to the column default
(add never reads the clock), completed_on is NULL and status defaults to
"pending". -/
def mkRow (a : AddArgs) (st : Store) : TaskRow :=
  { id := nextId st, md5 := a.md5, file_path := a.file_path,
    timeout := a.timeout, priority := a.priority, custom := a.custom,
    machine := a.machine, package := a.package, options := a.options,
    platform := a.platform, added_on := addedOnDefault,
    completed_on := none, status := "pending" }

/-- Database.add (database.py lines 120-160): returns None without touching
the store when file_path is falsy or does not exist on the filesystem;
otherwise inserts a pending row and returns its id, or rolls back and
returns None when the commit fails.  add never raises. -/
def add (a : AddArgs) (st : Store) : Except PyErr (Option Nat × Store) :=
  if a.file_path = "" || !a.fsOk then
    .ok (none, st)
  else
    if a.commitOk then .ok (some (nextId st), st ++ [mkRow a st])
    else .ok (none, st)

/-- Strict "comes first under ORDER BY priority desc, added_on" comparison:
a is served strictly before b. -/
def betterKey (a b : TaskRow) : Bool :=
  decide (b.priority < a.priority) ||
    (decide (a.priority = b.priority) && decide (a.added_on < b.added_on))

/-- First row of a list under ORDER BY priority desc, added_on: scans in
rowid order and keeps the earliest row that no later row strictly beats. -/
def selectBest : List TaskRow → Option TaskRow
  | [] => none
  | a :: rest =>
    match selectBest rest with
    | none => some a
    | some b => if betterKey b a then some b else some a

/-- The WHERE status == "pending" filter of Database.fetch. -/
def pendingRows (st : Store) : List TaskRow :=
  st.filter (fun t => t.status == "pending")

/-- Database.fetch (database.py lines 162-168): the first pending row under
ORDER BY priority desc, added_on; None when no row is pending. -/
def fetch (st : Store) : Option TaskRow :=
  selectBest (pendingRows st)

/-- Database.fetch as a store operation: it only runs a SELECT, so the
store component of the result is the input store. -/
def fetchOp (st : Store) : Option TaskRow × Store :=
  (fetch st, st)

/-- Database.complete (database.py lines 170-190).  The query get + the
task.lock assignment happen before the try/except, so a missing id raises
an AttributeError; otherwise status becomes "success"/"failure" and
completed_on is set to datetime.now() (the now argument), or the call rolls
back and returns False when the commit fails. -/
def complete (commitOk : Bool) (now : Nat) (task_id : Nat) (success : Bool) (st : Store) :
    Except PyErr (Bool × Store) :=
  match st.find? (fun t => t.id == task_id) with
  | none => .error (.attributeError "NoneType has no attribute lock")
  | some _ =>
    if commitOk then
      .ok (true, st.map (fun t =>
        if t.id == task_id then
          { t with status := if success then "success" else "failure",
                   completed_on := some now }
        else t))
    else
      .ok (false, st)

/-- Database.process (database.py lines 201-206). -/
def process (commitOk : Bool) (task_id : Nat) (st : Store) : Except PyErr (Bool × Store) :=
  _set_status commitOk task_id "processing" st

/-- Database.view (database.py lines 208-215). -/
def view (task_id : Nat) (st : Store) : Option TaskRow :=
  st.find? (fun t => t.id == task_id)

end Database

/-- One mutating call against the task store, with its oracle outcomes. -/
inductive DbOp where
  | addOp (a : Database.AddArgs)
  | procOp (commitOk : Bool) (tid : Nat)
  | completeOp (commitOk : Bool) (now : Nat) (tid : Nat) (success : Bool)
deriving DecidableEq

/-- Apply one mutating call; a call that raises leaves the store unchanged
(the exception fires before any uncommitted mutation is visible). -/
def applyOp (st : Store) (op : DbOp) : Store :=
  match op with
  | .addOp a =>
    match Database.add a st with
    | .ok (_, st') => st'
    | .error _ => st
  | .procOp ok tid =>
    match Database.process ok tid st with
    | .ok (_, st') => st'
    | .error _ => st
  | .completeOp ok now tid s =>
    match Database.complete ok now tid s st with
    | .ok (_, st') => st'
    | .error _ => st

/-- Run a sequence of mutating calls from the empty store. -/
def runOps (ops : List DbOp) : Store :=
  ops.foldl applyOp []

/- ===================================================================
   Status constants imported by src/utils/process.py.
   Modelled from the spec: process.py imports TASK_COMPLETED, TASK_REPORTED
   and TASK_FAILED_PROCESSING from lib.cuckoo.core.database, but the module
   under src/ does not define them; section 3 of the spec fixes the status
   vocabulary to pending / processing / completed / reported / failure /
   failed_processing.
   =================================================================== -/

/-- Modelled from the spec: the "completed" status constant of the
orchestrator's status vocabulary (spec section 3). -/
def TASK_COMPLETED : String := "completed"

/-- Modelled from the spec: the "reported" status constant of the
orchestrator's status vocabulary (spec section 3). -/
def TASK_REPORTED : String := "reported"

/-- Modelled from the spec: the "failed_processing" status constant of the
orchestrator's status vocabulary (spec section 3). -/
def TASK_FAILED_PROCESSING : String := "failed_processing"

/- ===================================================================
   The orchestrator's task store.
   Modelled from the spec: autoprocess uses Database.list_tasks,
   Database.set_status and Database.view_sample, and task fields category /
   target / sample_id, none of which exist in the database module under
   src/; spec sections 4.1 and 6 describe them (list_tasks: filtered read
   ordered by completion time ascending; set_status: generic status setter
   returning a bool, rolling back on commit failure; persisted schema with
   target and sample reference).
   =================================================================== -/

/-- Modelled from the spec: a task record as the orchestrator sees it
(spec section 6 persisted schema, reduced to the fields autoprocess
reads: id, category, target, sample_id, status, completed_on). -/
structure OTask where
  id : Nat
  category : String
  target : String
  sampleId : Nat
  status : String
  completedOn : Option Nat
deriving DecidableEq

/-- Modelled from the spec: a sample row as returned by view_sample; only
its sha256 is read by autoprocess. -/
structure Sample where
  id : Nat
  sha256 : String
deriving DecidableEq

/-- Modelled from the spec: the store backing the full Database of the
orchestrator (tasks plus samples). -/
structure OStore where
  tasks : List OTask
  samples : List Sample
deriving DecidableEq

/-- Modelled from the spec: Database.set_status(id, status) -> bool, the
generic status setter used by the orchestrator; on a commit failure it
rolls back and reports failure (spec section 4.1 failure semantics). -/
def setStatus (commitOk : Bool) (tid : Nat) (s : String) (st : OStore) : Bool × OStore :=
  if commitOk then
    (true, { st with tasks := st.tasks.map (fun t => if t.id == tid then { t with status := s } else t) })
  else
    (false, st)

/-- Modelled from the spec: Database.view_sample. -/
def viewSample (st : OStore) (sid : Nat) : Option Sample :=
  st.samples.find? (fun s => s.id == sid)

/-- Sort key of "order_by completed_on asc" (a completed task always has
completed_on set; NULL sorts first). -/
def completedKey (t : OTask) : Nat := t.completedOn.getD 0

/-- Stable insertion for the completed_on ascending sort. -/
def insertCompleted (t : OTask) : List OTask → List OTask
  | [] => [t]
  | u :: rest =>
    if completedKey u < completedKey t then u :: insertCompleted t rest
    else t :: u :: rest

/-- Modelled from the spec: Database.list_tasks(status=..., limit=...,
order_by="completed_on asc") — the rows in the given status, ordered by
completion time ascending, truncated to the limit (spec section 4.1). -/
def listTasks (st : OStore) (status : String) (limit : Nat) : List OTask :=
  ((st.tasks.filter (fun t => t.status == status)).foldr insertCompleted []).take limit

/- ===================================================================
   MongoDB blob cleanup: src/utils/process.py lines 47-78.
   =================================================================== -/

/-- An analysis document of the mdata.analysis collection, reduced to the
fields the cleanup block reads: its _id, its info.id (the task id), the
GridFS ids it references (target.file_id, shots, network.pcap_id,
network.sorted_pcap_id, dropped[*].object_id — each possibly absent) and
the call-log document ids under behavior.processes[*].calls. -/
structure Analysis where
  mongoId : Nat
  infoId : Nat
  targetFileId : Option Nat
  shots : List Nat
  pcapId : Option Nat
  sortedPcapId : Option Nat
  dropped : List (Option Nat)
  processes : List (List Nat)
deriving DecidableEq

/-- The MongoDB state touched by the cleanup block: the analysis collection,
the GridFS file ids and the calls collection. -/
structure MongoState where
  analyses : List Analysis
  fs : List Nat
  calls : List Nat
deriving DecidableEq

/-- The five shared-artifact slots whose reference counts gate deletion. -/
inductive Cat where
  | target
  | shot
  | pcap
  | sortedPcap
  | dropped
deriving DecidableEq

/-- Whether one analysis record references artifact x in the given slot. -/
def refIn : Cat → Analysis → Nat → Bool
  | .target, a, x => a.targetFileId == some x
  | .shot, a, x => a.shots.contains x
  | .pcap, a, x => a.pcapId == some x
  | .sortedPcap, a, x => a.sortedPcapId == some x
  | .dropped, a, x => a.dropped.contains (some x)

/-- The reference count the cleanup block computes for artifact x in the
given slot: mdata.analysis.find({slot: ObjectId(x)}).count(). -/
def catCount (c : Cat) (ans : List Analysis) (x : Nat) : Nat :=
  (ans.filter (fun a => refIn c a x)).length

/-- GridFS fs.delete(x): drop the file with that id. -/
def fsDelete (x : Nat) (fs : List Nat) : List Nat :=
  fs.filter (fun y => y != x)

/-- Delete x from GridFS iff its reference count in the given slot is
exactly one (the check at process.py lines 61, 64, 66, 68, 71). -/
def delIfSingle (ans : List Analysis) (c : Cat) (x : Nat) (fs : List Nat) : List Nat :=
  if catCount c ans x == 1 then fsDelete x fs else fs

/-- The "if the key is present and its count is one, delete" pattern used
for target.file_id, network.pcap_id and network.sorted_pcap_id. -/
def optDel (ans : List Analysis) (c : Cat) (o : Option Nat) (fs : List Nat) : List Nat :=
  match o with
  | some x => delIfSingle ans c x fs
  | none => fs

/-- All call-log document ids of one analysis record. -/
def callsOf (a : Analysis) : List Nat := a.processes.flatten

/-- Process one analysis document of the cursor (the body of
"for analysis in analyses:", process.py lines 59-76): conditionally delete
each referenced blob — every reference count is taken against the analysis
collection as it stands when this document is processed, which the block
itself only changes in its last step — then unconditionally remove the
analysis's call documents and finally the analysis record itself. -/
def cleanupOne (st : MongoState) (a : Analysis) : MongoState :=
  let ans := st.analyses
  let fs1 := optDel ans .target a.targetFileId st.fs
  let fs2 := a.shots.foldl (fun fs s => delIfSingle ans .shot s fs) fs1
  let fs3 := optDel ans .pcap a.pcapId fs2
  let fs4 := optDel ans .sortedPcap a.sortedPcapId fs3
  let fs5 := a.dropped.foldl (fun fs d => optDel ans .dropped d fs) fs4
  let calls2 := a.processes.foldl (fun cs pcalls =>
    pcalls.foldl (fun cs c => cs.filter (fun y => y != c)) cs) st.calls
  { analyses := ans.filter (fun b => b.mongoId != a.mongoId),
    fs := fs5,
    calls := calls2 }

/-- The cleanup block of process() (process.py lines 56-78) for task id tid:
find every analysis record with info.id == tid and clean each in turn.
The task id is an explicit parameter here; the module itself never binds
the name task_id it uses there (see moduleTaskId below). -/
def deleteMongoData (tid : Nat) (st : MongoState) : MongoState :=
  let found := st.analyses.filter (fun a => a.infoId == tid)
  if found.length > 0 then found.foldl cleanupOne st else st

/- ===================================================================
   The per-task pipeline function process (src/utils/process.py 31-88).
   =================================================================== -/

/-- The binding of the name task_id in the environment of the function
process: utils/process.py never assigns task_id anywhere — not as a
parameter of process (whose parameters are target, copy_path, task, report,
auto), not in the function body and not at module level — so the name is
unbound. -/
def moduleTaskId : Option Nat := none

/-- The function process (process.py lines 31-88) restricted to the state
it can touch in this model: the MongoDB state and the task store.  The
processing / feeds / signatures / reporting stages are external
collaborators (spec section 4.4) with no effect on either; the
delete_original / delete_bin_copy unlinks touch only the filesystem.  With
report=True the function evaluates the name task_id — at the
mdata.analysis.find of the cleanup block when the MongoDB reporting
backend is enabled, else at the Database().set_status call — raising a
NameError when the name is unbound; otherwise it runs the cleanup and
marks the task reported. -/
def processEmbed (taskIdB : Option Nat) (report mongoEnabled commitOk : Bool)
    (mst : MongoState) (ts : OStore) : Option PyErr × MongoState × OStore :=
  if report then
    match taskIdB with
    | none => (some (.nameError "task_id"), mst, ts)
    | some tid =>
      let mst' := if mongoEnabled then deleteMongoData tid mst else mst
      (none, mst', (setStatus commitOk tid TASK_REPORTED ts).2)
  else
    (none, mst, ts)

/- ===================================================================
   The scheduling loop autoprocess (src/utils/process.py lines 93-167).
   =================================================================== -/

/-- One record of the pending_results list: the AsyncResult handle
(modelled by the Nat issued at submission), the task id, the target and
the binary copy path of the tuple appended at process.py line 150. -/
structure PendingRec where
  handle : Nat
  tid : Nat
  target : String
  copyPath : Option String
deriving DecidableEq

/-- The configuration of one autoprocess run: parallel (the pool size P)
and cfg.cuckoo.max_analysis_count (0 = unlimited). -/
structure OrchCfg where
  parallel : Nat
  maxcount : Nat
deriving DecidableEq

/-- The state autoprocess carries across loop iterations: count (tasks
submitted so far), pending_results, the task store, and the next fresh
AsyncResult handle. -/
structure LoopState where
  count : Nat
  pending : List PendingRec
  db : OStore
  nextHandle : Nat
deriving DecidableEq

/-- The external outcomes one loop iteration can observe: per handle,
whether AsyncResult.ready() / AsyncResult.successful() hold, and per task
id whether the set_status commit of the reap phase succeeds. -/
structure OrchEnv where
  ready : Nat → Bool
  successful : Nat → Bool
  commitOk : Nat → Bool

/-- The reap phase (process.py lines 105-116): walk a snapshot of
pending_results; for a ready handle, a successful result is only logged
while a failed one has its exception logged and the task force-set to
failed_processing; the record is erased from the live list (Python
list.remove: first occurrence) whenever the handle was ready. -/
def reapGo (env : OrchEnv) : List PendingRec → List PendingRec × OStore → List PendingRec × OStore
  | [], acc => acc
  | r :: rest, (p, db) =>
    if env.ready r.handle then
      let db' := if env.successful r.handle then db
        else (setStatus (env.commitOk r.tid) r.tid TASK_FAILED_PROCESSING db).2
      reapGo env rest (p.erase r, db')
    else
      reapGo env rest (p, db)

/-- The reap phase applied to the loop state. -/
def reap (env : OrchEnv) (s : LoopState) : LoopState :=
  let pr := reapGo env s.pending (s.pending, s.db)
  { s with pending := pr.1, db := pr.2 }

/-- CUCKOO_ROOT-relative path of the working copy of a sample. -/
def binariesPath (sha : String) : String := "storage/binaries/" ++ sha

/-- The copy_path computed for a discovered task (process.py lines
138-144): the stored binary for a file task, None otherwise. -/
def copyPathFor (db : OStore) (t : OTask) : Option String :=
  if t.category == "file" then (viewSample db t.sampleId).map (fun s => binariesPath s.sha256)
  else none

/-- The discovery + submission phase (process.py lines 125-154): list up
to parallel completed tasks oldest-completed first, submit the first whose
id is not already in pending_results (at most one per iteration), append
its record and increment count; leave the state unchanged when every
discovered task is already in flight or none was discovered. -/
def submitPhase (cfg : OrchCfg) (s : LoopState) : LoopState :=
  let tasks := listTasks s.db TASK_COMPLETED cfg.parallel
  match tasks.find? (fun t => !((s.pending.map (·.tid)).contains t.id)) with
  | none => s
  | some t =>
    let r1 : PendingRec :=
      { handle := s.nextHandle, tid := t.id, target := t.target,
        copyPath := copyPathFor s.db t }
    { s with pending := s.pending ++ [r1],
             nextHandle := s.nextHandle + 1,
             count := s.count + 1 }

/-- One iteration of the big loop (process.py lines 102-158): reap, then
either back off because the pool is still full (len(pending_results) >=
parallel) or discover and submit at most one task.  The time.sleep calls
have no modelled effect. -/
def loopIter (cfg : OrchCfg) (env : OrchEnv) (s : LoopState) : LoopState :=
  let s1 := reap env s
  if cfg.parallel ≤ s1.pending.length then s1 else submitPhase cfg s1

/-- The while condition (process.py line 102):
count < maxcount or not maxcount. -/
def loopGuard (cfg : OrchCfg) (s : LoopState) : Bool :=
  decide (s.count < cfg.maxcount) || decide (cfg.maxcount = 0)

/-- The loop itself, fuel-bounded: stop as soon as the guard fails, else
run one iteration under the iteration's environment. -/
def runLoop (cfg : OrchCfg) (envs : Nat → OrchEnv) : Nat → LoopState → LoopState
  | 0, s => s
  | n + 1, s =>
    if loopGuard cfg s then runLoop cfg envs n (loopIter cfg (envs n) s) else s

/-- The state autoprocess starts from (process.py lines 95-98):
count = 0, pending_results = []. -/
def initState (db : OStore) : LoopState :=
  { count := 0, pending := [], db := db, nextHandle := 0 }

/-- The orchestrator invariant of spec section 3: never more in-flight
records than the configured parallelism, and never two records for the
same task id. -/
def OrchInv (cfg : OrchCfg) (s : LoopState) : Prop :=
  s.pending.length ≤ cfg.parallel ∧ (s.pending.map (·.tid)).Nodup

/-- The task ids whose status the reap phase sets to failed_processing
over a snapshot: ready, unsuccessful, and with a successful commit. -/
def failSet (env : OrchEnv) (l : List PendingRec) : List Nat :=
  (l.filter (fun r => env.ready r.handle && !env.successful r.handle && env.commitOk r.tid)).map (·.tid)

/-- The db writes of the reap phase over a snapshot, in order. -/
def dbFoldFail (env : OrchEnv) (l : List PendingRec) (db : OStore) : OStore :=
  l.foldl (fun db r =>
    if env.ready r.handle && !env.successful r.handle then
      (setStatus (env.commitOk r.tid) r.tid TASK_FAILED_PROCESSING db).2
    else db) db

/- ===================================================================
   Concrete fixtures used by witnesses and counterexamples.
   =================================================================== -/

/-- Three adds: priorities 1, 1, 5 (spec section 8, scenario A). -/
def exOps : List DbOp :=
  [.addOp (Database.defaultAddArgs true true "a"),
   .addOp (Database.defaultAddArgs true true "b"),
   .addOp { Database.defaultAddArgs true true "c" with priority := 5 }]

/-- The store exOps produces. -/
def exStore : Store := runOps exOps

/-- The first row of exStore. -/
def exT1 : TaskRow :=
  { id := 1, md5 := none, file_path := "a", timeout := 0, priority := 1,
    custom := none, machine := none, package := none, options := none,
    platform := none, added_on := addedOnDefault, completed_on := none,
    status := "pending" }

/-- The second row of exStore. -/
def exT2 : TaskRow := { exT1 with id := 2, file_path := "b" }

/-- The third row of exStore. -/
def exT3 : TaskRow := { exT1 with id := 3, file_path := "c", priority := 5 }

/-- A one-row store. -/
def c7store : Store := [exT1]

/-- An add followed by a successful complete. -/
def c8ops : List DbOp :=
  [.addOp (Database.defaultAddArgs true true "sample"), .completeOp true 5 1 true]

/-- The row c8ops produces. -/
def c8row : TaskRow :=
  { exT1 with file_path := "sample", completed_on := some 5, status := "success" }

/-- An analysis of task 7 referencing: blob 5 as target (shared with exA2),
shot 6 (shared), pcap 8 (exclusive), dropped 9 (exclusive), and calls
100, 101, 102. -/
def exA1 : Analysis :=
  { mongoId := 10, infoId := 7, targetFileId := some 5, shots := [6],
    pcapId := some 8, sortedPcapId := none, dropped := [some 9, none],
    processes := [[100, 101], [102]] }

/-- An analysis of task 3 sharing blob 5 and shot 6 with exA1. -/
def exA2 : Analysis :=
  { mongoId := 11, infoId := 3, targetFileId := some 5, shots := [6],
    pcapId := none, sortedPcapId := none, dropped := [], processes := [] }

/-- A MongoDB state holding both analyses. -/
def exM : MongoState :=
  { analyses := [exA1, exA2], fs := [5, 6, 8, 9], calls := [100, 101, 102, 103] }

/-- One completed url task, never post-processed. -/
def exOrchDb : OStore :=
  { tasks := [{ id := 1, category := "url", target := "http", sampleId := 0,
                status := "completed", completedOn := some 0 }],
    samples := [] }

/-- parallel = 1, max_analysis_count = 1. -/
def exOrchCfg : OrchCfg := { parallel := 1, maxcount := 1 }

/-- An environment whose handles never become ready. -/
def exOrchEnv : OrchEnv :=
  { ready := fun _ => false, successful := fun _ => false, commitOk := fun _ => true }

/-- One in-flight record for task 1. -/
def c4rec : PendingRec := { handle := 0, tid := 1, target := "http", copyPath := none }

/-- A loop state holding c4rec in flight over exOrchDb. -/
def c4state : LoopState :=
  { count := 1, pending := [c4rec], db := exOrchDb, nextHandle := 1 }

/-- An environment whose handles are all ready and all failed. -/
def c4env : OrchEnv :=
  { ready := fun _ => true, successful := fun _ => false, commitOk := fun _ => true }

/- ===================================================================
   Lemmas about the fetch ordering.
   =================================================================== -/

lemma betterKey_iff (a b : TaskRow) :
    Database.betterKey a b = true ↔
      (b.priority < a.priority ∨ (a.priority = b.priority ∧ a.added_on < b.added_on)) := by
  simp [Database.betterKey]

lemma betterKey_false_iff (a b : TaskRow) :
    Database.betterKey a b = false ↔
      ¬(b.priority < a.priority ∨ (a.priority = b.priority ∧ a.added_on < b.added_on)) := by
  rw [← betterKey_iff]
  cases h : Database.betterKey a b <;> simp

lemma betterKey_irrefl (a : TaskRow) : Database.betterKey a a = false := by
  rw [betterKey_false_iff]
  omega

lemma betterKey_asymm {a b : TaskRow} (h : Database.betterKey a b = true) :
    Database.betterKey b a = false := by
  rw [betterKey_iff] at h
  rw [betterKey_false_iff]
  omega

lemma betterKey_negtrans {a b c : TaskRow}
    (h1 : Database.betterKey a b = false) (h2 : Database.betterKey b c = false) :
    Database.betterKey a c = false := by
  rw [betterKey_false_iff] at h1 h2 ⊢
  omega

lemma selectBest_isSome (l : List TaskRow) (h : l ≠ []) :
    ∃ t, Database.selectBest l = some t := by
  cases l with
  | nil => exact absurd rfl h
  | cons a rest =>
    simp only [Database.selectBest]
    cases Database.selectBest rest with
    | none => exact ⟨a, rfl⟩
    | some b =>
      by_cases hb : Database.betterKey b a = true
      · exact ⟨b, by simp [hb]⟩
      · exact ⟨a, by simp [hb]⟩

lemma selectBest_cons_none {rest : List TaskRow} {a : TaskRow}
    (h : Database.selectBest rest = none) :
    Database.selectBest (a :: rest) = some a := by
  simp [Database.selectBest, h]

lemma selectBest_cons_some {rest : List TaskRow} {a b : TaskRow}
    (h : Database.selectBest rest = some b) :
    Database.selectBest (a :: rest) =
      if Database.betterKey b a then some b else some a := by
  simp [Database.selectBest, h]

lemma selectBest_spec :
    ∀ (l : List TaskRow) (t : TaskRow), Database.selectBest l = some t →
      t ∈ l ∧ (∀ u ∈ l, Database.betterKey u t = false) ∧
        (∀ l1 u l2, l = l1 ++ u :: l2 → Database.betterKey t u = false → t ∈ l1 ∨ t = u) := by
  intro l
  induction l with
  | nil => intro t h; simp [Database.selectBest] at h
  | cons a rest ih =>
    intro t h
    cases h2 : Database.selectBest rest with
    | none =>
      rw [selectBest_cons_none h2] at h
      injection h with h
      subst h
      have hrest : rest = [] := by
        rcases hr : rest with _ | ⟨b, rb⟩
        · rfl
        · obtain ⟨x, hx⟩ := selectBest_isSome (b :: rb) (by simp)
          rw [hr, hx] at h2
          cases h2
      subst hrest
      refine ⟨List.mem_singleton_self _, ?_, ?_⟩
      · intro u hu
        rw [List.mem_singleton] at hu
        subst hu
        exact betterKey_irrefl _
      · intro l1 u l2 heq _
        cases l1 with
        | nil =>
          simp only [List.nil_append] at heq
          injection heq with h1 _
          exact Or.inr h1
        | cons x xs =>
          simp only [List.cons_append] at heq
          injection heq with _ h2'
          exact absurd h2'.symm (List.append_ne_nil_of_right_ne_nil _ (List.cons_ne_nil _ _))
    | some b =>
      rw [selectBest_cons_some h2] at h
      obtain ⟨hbmem, hbopt, hbpos⟩ := ih b h2
      by_cases hba : Database.betterKey b a = true
      · rw [if_pos hba] at h
        injection h with h
        subst h
        refine ⟨List.mem_cons_of_mem _ hbmem, ?_, ?_⟩
        · intro u hu
          rcases List.mem_cons.mp hu with rfl | hu
          · exact betterKey_asymm hba
          · exact hbopt u hu
        · intro l1 u l2 heq hbu
          cases l1 with
          | nil =>
            simp only [List.nil_append] at heq
            injection heq with h1 _
            rw [← h1] at hbu
            rw [hbu] at hba
            cases hba
          | cons x xs =>
            simp only [List.cons_append] at heq
            injection heq with _ h2'
            rcases hbpos xs u l2 h2' hbu with hin | heq2
            · exact Or.inl (List.mem_cons_of_mem _ hin)
            · exact Or.inr heq2
      · rw [if_neg hba] at h
        injection h with h
        subst h
        have hba' : Database.betterKey b a = false := by
          cases hv : Database.betterKey b a
          · rfl
          · exact absurd hv hba
        refine ⟨List.mem_cons_self _ _, ?_, ?_⟩
        · intro u hu
          rcases List.mem_cons.mp hu with rfl | hu
          · exact betterKey_irrefl _
          · exact betterKey_negtrans (hbopt u hu) hba'
        · intro l1 u l2 heq _
          cases l1 with
          | nil =>
            simp only [List.nil_append] at heq
            injection heq with h1 _
            exact Or.inr h1
          | cons x xs =>
            simp only [List.cons_append] at heq
            injection heq with h1 _
            exact Or.inl (h1 ▸ List.mem_cons_self _ _)

lemma mem_pendingRows {st : Store} {t : TaskRow} :
    t ∈ Database.pendingRows st ↔ t ∈ st ∧ t.status = "pending" := by
  simp [Database.pendingRows, List.mem_filter]

/-- C6.  Whenever at least one pending task exists, fetch returns a pending
task of maximal priority, with minimal added_on among those, and it is the
earliest-inserted row among the pending rows with that exact sort key;
fetch returns none exactly when no pending task exists, and the store
component of the operation is returned unchanged.  (Note: by C9 every row
carries the identical added_on column default, so among equal priorities
the added_on comparison never discriminates and the scan order of the
table decides.) -/
theorem c6_fetch_ordering (st : Store) (t : TaskRow) (hf : Database.fetch st = some t) :
    t ∈ st ∧ t.status = "pending"
    ∧ (∀ u ∈ st, u.status = "pending" →
        u.priority ≤ t.priority ∧ (u.priority = t.priority → t.added_on ≤ u.added_on))
    ∧ (∀ l1 u l2, st = l1 ++ u :: l2 → u.status = "pending" →
        u.priority = t.priority → u.added_on = t.added_on → t ≠ u → t ∈ l1)
    ∧ (Database.fetchOp st).2 = st
    ∧ (∀ st' : Store, Database.fetch st' = none ↔ ∀ u ∈ st', u.status ≠ "pending") := by
  obtain ⟨hmem, hopt, hpos⟩ := selectBest_spec _ t hf
  obtain ⟨hmem', hpend⟩ := mem_pendingRows.mp hmem
  refine ⟨hmem', hpend, ?_, ?_, rfl, ?_⟩
  · intro u hu hup
    have h := hopt u (mem_pendingRows.mpr ⟨hu, hup⟩)
    rw [betterKey_false_iff] at h
    omega
  · intro l1 u l2 heq hup hp ha hne
    have hsplit : Database.pendingRows st =
        Database.pendingRows l1 ++ u :: Database.pendingRows l2 := by
      rw [heq]
      simp only [Database.pendingRows, List.filter_append, List.filter_cons]
      rw [if_pos (by simp [hup])]
    have hbtu : Database.betterKey t u = false := by
      rw [betterKey_false_iff]
      omega
    rcases hpos _ u _ hsplit hbtu with hin | heq2
    · exact (mem_pendingRows.mp (by
        simpa [Database.pendingRows] using hin)).1
    · exact absurd heq2 hne
  · intro st'
    constructor
    · intro hnone u hu hup
      obtain ⟨x, hx⟩ := selectBest_isSome (Database.pendingRows st')
        (List.ne_nil_of_mem (mem_pendingRows.mpr ⟨hu, hup⟩))
      rw [Database.fetch, hx] at hnone
      cases hnone
    · intro hall
      cases hp : Database.pendingRows st' with
      | nil => rw [Database.fetch, hp]; rfl
      | cons x xs =>
        have hx : x ∈ Database.pendingRows st' := by rw [hp]; exact List.mem_cons_self _ _
        obtain ⟨hx1, hx2⟩ := mem_pendingRows.mp hx
        exact absurd hx2 (hall x hx1)

/-- Witness for C6 at the scenario-A store (priorities 1, 1, 5): fetch
returns the priority-5 row. -/
theorem c6_witness :
    Database.fetch exStore = some exT3 ∧ exT3 ∈ exStore ∧ exT3.status = "pending" :=
  ⟨by decide, (c6_fetch_ordering exStore exT3 (by decide)).1,
    (c6_fetch_ordering exStore exT3 (by decide)).2.1⟩

/- ===================================================================
   Lemmas about the mutating store calls.
   =================================================================== -/

lemma find?_id_some {st : Store} {tid : Nat} (h : tid ∈ Database.taskIds st) :
    ∃ u, st.find? (fun t => t.id == tid) = some u := by
  obtain ⟨u, hu, huid⟩ := List.mem_map.mp h
  cases hf : st.find? (fun t => t.id == tid) with
  | none =>
    have := List.find?_eq_none.mp hf u hu
    simp [huid] at this
  | some v => exact ⟨v, rfl⟩

lemma add_cases (a : Database.AddArgs) (st : Store) :
    Database.add a st = .ok (none, st)
    ∨ Database.add a st = .ok (some (Database.nextId st), st ++ [Database.mkRow a st]) := by
  unfold Database.add
  split
  · exact Or.inl rfl
  · split
    · exact Or.inr rfl
    · exact Or.inl rfl

lemma set_status_cases (ok : Bool) (tid : Nat) (s : String) (st : Store) :
    Database._set_status ok tid s st = .error (.attributeError "NoneType has no attribute status")
    ∨ Database._set_status ok tid s st = .ok (false, st)
    ∨ Database._set_status ok tid s st =
        .ok (true, st.map (fun t => if t.id == tid then { t with status := s } else t)) := by
  unfold Database._set_status
  split
  · exact Or.inl rfl
  · split
    · exact Or.inr (Or.inr rfl)
    · exact Or.inr (Or.inl rfl)

lemma complete_cases (ok : Bool) (now : Nat) (tid : Nat) (success : Bool) (st : Store) :
    Database.complete ok now tid success st = .error (.attributeError "NoneType has no attribute lock")
    ∨ Database.complete ok now tid success st = .ok (false, st)
    ∨ Database.complete ok now tid success st =
        .ok (true, st.map (fun t =>
          if t.id == tid then
            { t with status := if success then "success" else "failure",
                     completed_on := some now }
          else t)) := by
  unfold Database.complete
  split
  · exact Or.inl rfl
  · split
    · exact Or.inr (Or.inr rfl)
    · exact Or.inr (Or.inl rfl)

lemma applyOp_status {st : Store} (op : DbOp)
    (hinv : ∀ t ∈ st, t.status ∈ statusEnumDeclared) :
    ∀ t ∈ applyOp st op, t.status ∈ statusEnumDeclared := by
  cases op with
  | addOp a =>
    rcases add_cases a st with h | h <;> simp only [applyOp, h]
    · exact hinv
    · intro t ht
      rcases List.mem_append.mp ht with h' | h'
      · exact hinv t h'
      · rw [List.mem_singleton] at h'
        subst h'
        simp [Database.mkRow, statusEnumDeclared]
  | procOp ok tid =>
    rcases set_status_cases ok tid "processing" st with h | h | h <;>
      simp only [applyOp, Database.process, h]
    · exact hinv
    · exact hinv
    · intro t ht
      obtain ⟨w, hw, rfl⟩ := List.mem_map.mp ht
      by_cases hid : (w.id == tid) = true
      · simp [hid, statusEnumDeclared]
      · simp only [Bool.not_eq_true] at hid
        simp [hid]
        exact hinv w hw
  | completeOp ok now tid success =>
    rcases complete_cases ok now tid success st with h | h | h <;>
      simp only [applyOp, h]
    · exact hinv
    · exact hinv
    · intro t ht
      obtain ⟨w, hw, rfl⟩ := List.mem_map.mp ht
      by_cases hid : (w.id == tid) = true
      · cases success <;> simp [hid, statusEnumDeclared]
      · simp only [Bool.not_eq_true] at hid
        simp [hid]
        exact hinv w hw

lemma runOps_status :
    ∀ (ops : List DbOp) (st : Store), (∀ t ∈ st, t.status ∈ statusEnumDeclared) →
      ∀ t ∈ ops.foldl applyOp st, t.status ∈ statusEnumDeclared := by
  intro ops
  induction ops with
  | nil => intro st h; simpa using h
  | cons op rest ih => intro st h; exact ih _ (applyOp_status op h)

lemma applyOp_added_on {st : Store} (op : DbOp)
    (hinv : ∀ t ∈ st, t.added_on = addedOnDefault) :
    ∀ t ∈ applyOp st op, t.added_on = addedOnDefault := by
  cases op with
  | addOp a =>
    rcases add_cases a st with h | h <;> simp only [applyOp, h]
    · exact hinv
    · intro t ht
      rcases List.mem_append.mp ht with h' | h'
      · exact hinv t h'
      · rw [List.mem_singleton] at h'
        subst h'
        rfl
  | procOp ok tid =>
    rcases set_status_cases ok tid "processing" st with h | h | h <;>
      simp only [applyOp, Database.process, h]
    · exact hinv
    · exact hinv
    · intro t ht
      obtain ⟨w, hw, rfl⟩ := List.mem_map.mp ht
      by_cases hid : (w.id == tid) = true
      · simp [hid]
        exact hinv w hw
      · simp only [Bool.not_eq_true] at hid
        simp [hid]
        exact hinv w hw
  | completeOp ok now tid success =>
    rcases complete_cases ok now tid success st with h | h | h <;>
      simp only [applyOp, h]
    · exact hinv
    · exact hinv
    · intro t ht
      obtain ⟨w, hw, rfl⟩ := List.mem_map.mp ht
      by_cases hid : (w.id == tid) = true
      · simp [hid]
        exact hinv w hw
      · simp only [Bool.not_eq_true] at hid
        simp [hid]
        exact hinv w hw

lemma runOps_added_on :
    ∀ (ops : List DbOp) (st : Store), (∀ t ∈ st, t.added_on = addedOnDefault) →
      ∀ t ∈ ops.foldl applyOp st, t.added_on = addedOnDefault := by
  intro ops
  induction ops with
  | nil => intro st h; simpa using h
  | cons op rest ih => intro st h; exact ih _ (applyOp_added_on op h)

/-- C7 counterexample.  _set_status on a store without the task id raises
an AttributeError (None.status = ...) instead of returning a falsy
sentinel: the claim "no mutating call raises an exception to its caller
for every input" is false. -/
theorem c7_counterexample :
    Database._set_status true 1 "processing" [] =
      .error (.attributeError "NoneType has no attribute status") := rfl

/-- C7 as amended.  On a commit failure every mutating call rolls back,
returns the falsy/none sentinel and leaves the store unchanged, and no
mutating call raises provided (for _set_status / process / complete) the
task id is present in the store; add never raises for any input. -/
theorem c7_mutators_sentinel (a : Database.AddArgs) (st : Store) (tid : Nat) (s : String)
    (now : Nat) (success ok : Bool) (htid : tid ∈ Database.taskIds st) :
    Database.add { a with commitOk := false } st = .ok (none, st)
    ∧ Database._set_status false tid s st = .ok (false, st)
    ∧ Database.complete false now tid success st = .ok (false, st)
    ∧ (∃ r, Database._set_status ok tid s st = .ok r)
    ∧ (∃ r, Database.complete ok now tid success st = .ok r)
    ∧ (∃ r, Database.add a st = .ok r) := by
  obtain ⟨u, hu⟩ := find?_id_some htid
  refine ⟨?_, ?_, ?_, ?_, ?_, ?_⟩
  · unfold Database.add
    split
    · rfl
    · rfl
  · simp [Database._set_status, hu]
  · simp [Database.complete, hu]
  · rcases set_status_cases ok tid s st with h | h | h
    · exfalso
      unfold Database._set_status at h
      rw [hu] at h
      cases ok <;> simp at h
    · exact ⟨_, h⟩
    · exact ⟨_, h⟩
  · rcases complete_cases ok now tid success st with h | h | h
    · exfalso
      unfold Database.complete at h
      rw [hu] at h
      cases ok <;> simp at h
    · exact ⟨_, h⟩
    · exact ⟨_, h⟩
  · rcases add_cases a st with h | h
    · exact ⟨_, h⟩
    · exact ⟨_, h⟩

/-- Witness for C7 (amended): a commit failure on a one-row store returns
the False sentinel with the store unchanged. -/
theorem c7_witness :
    1 ∈ Database.taskIds c7store ∧
      Database._set_status false 1 "reported" c7store = .ok (false, c7store) :=
  ⟨by decide,
    (c7_mutators_sentinel (Database.defaultAddArgs true true "x") c7store 1 "reported"
      0 true true (by decide)).2.1⟩

/-- C8 counterexample.  A successful complete persists status "success",
which is outside the claimed enumerated set pending / processing /
completed / reported / failure / failed_processing: the declared enum of
the store under src/ is pending / processing / failure / success. -/
theorem c8_counterexample :
    ∃ t ∈ runOps c8ops,
      t.status ∉ ["pending", "processing", "completed", "reported", "failure",
        "failed_processing"] := by decide

/-- C8 as amended.  Every task record produced by add / process / complete
has a status in the declared enum pending / processing / failure / success;
the generic setter _set_status writes whatever status string it is given,
without validation (which is how the orchestrator's reported /
failed_processing strings would reach the status column); and a task
inserted with the source-default arguments has priority 1, timeout 0 and
status "pending". -/
theorem c8_status_schema (ops : List DbOp) (t : TaskRow) (ht : t ∈ runOps ops)
    (st : Store) (tid : Nat) (s : String) (htid : tid ∈ Database.taskIds st) :
    t.status ∈ statusEnumDeclared
    ∧ (∀ (commitOk fsOk : Bool) (path : String) (st' : Store),
        (Database.mkRow (Database.defaultAddArgs commitOk fsOk path) st').priority = 1
        ∧ (Database.mkRow (Database.defaultAddArgs commitOk fsOk path) st').timeout = 0
        ∧ (Database.mkRow (Database.defaultAddArgs commitOk fsOk path) st').status = "pending")
    ∧ (∃ st2, Database._set_status true tid s st = .ok (true, st2)
        ∧ ∀ u ∈ st2, u.id = tid → u.status = s) := by
  refine ⟨runOps_status ops [] (by simp) t ht, ?_, ?_⟩
  · intro _ _ _ _
    exact ⟨rfl, rfl, rfl⟩
  · obtain ⟨u, hu⟩ := find?_id_some htid
    have heq : Database._set_status true tid s st =
        .ok (true, st.map (fun t => if t.id == tid then { t with status := s } else t)) := by
      unfold Database._set_status
      rw [hu]
      rfl
    refine ⟨_, heq, ?_⟩
    intro v hv hvid
    obtain ⟨w, hw, rfl⟩ := List.mem_map.mp hv
    by_cases hwid : (w.id == tid) = true
    · simp [hwid]
    · simp only [Bool.not_eq_true] at hwid
      simp [hwid] at hvid
      exact absurd hvid (by simpa using hwid)

/-- Witness for C8 (amended): the "success" row is in the declared enum. -/
theorem c8_witness : c8row ∈ runOps c8ops ∧ c8row.status ∈ statusEnumDeclared :=
  ⟨by decide, (c8_status_schema c8ops c8row (by decide) c7store 1 "reported" (by decide)).1⟩

/-- C9.  Every row ever inserted carries the identical added_on value: the
single clock value captured when class Task was defined (the column
default), because add never reads the clock.  Consequently two rows of
equal priority have equal fetch sort keys — the added_on tie-break cannot
distinguish their insertion order (betterKey is false both ways). -/
theorem c9_added_on_constant (ops : List DbOp) (t u : TaskRow)
    (ht : t ∈ runOps ops) (hu : u ∈ runOps ops) (hp : t.priority = u.priority) :
    t.added_on = addedOnDefault ∧ u.added_on = addedOnDefault
    ∧ Database.betterKey t u = false ∧ Database.betterKey u t = false := by
  have h1 := runOps_added_on ops [] (by simp) t ht
  have h2 := runOps_added_on ops [] (by simp) u hu
  refine ⟨h1, h2, ?_, ?_⟩ <;> rw [betterKey_false_iff] <;> omega

/-- Witness for C9: the two priority-1 rows of the scenario store are
mutually indistinguishable to the fetch ordering. -/
theorem c9_witness :
    exT1 ∈ runOps exOps ∧ exT2 ∈ runOps exOps ∧ exT1.priority = exT2.priority
    ∧ Database.betterKey exT1 exT2 = false :=
  ⟨by decide, by decide, by decide,
    (c9_added_on_constant exOps exT1 exT2 (by decide) (by decide) (by decide)).2.2.1⟩

/- ===================================================================
   Lemmas about the MongoDB blob cleanup.
   =================================================================== -/

lemma mem_fsDelete {x y : Nat} {fs : List Nat} :
    x ∈ fsDelete y fs ↔ x ∈ fs ∧ x ≠ y := by
  simp [fsDelete, List.mem_filter]

lemma mem_delIfSingle {ans : List Analysis} {c : Cat} {x y : Nat} {fs : List Nat} :
    x ∈ delIfSingle ans c y fs ↔ x ∈ fs ∧ ¬(x = y ∧ catCount c ans y = 1) := by
  unfold delIfSingle
  by_cases h : catCount c ans y = 1
  · rw [if_pos (by simp [h]), mem_fsDelete]
    constructor
    · rintro ⟨hf, hne⟩
      exact ⟨hf, fun hx => hne hx.1⟩
    · rintro ⟨hf, hn⟩
      exact ⟨hf, fun he => hn ⟨he, h⟩⟩
  · rw [if_neg (by simp [h])]
    constructor
    · intro hf
      exact ⟨hf, fun hx => h hx.2⟩
    · rintro ⟨hf, _⟩
      exact hf

lemma mem_optDel {ans : List Analysis} {c : Cat} {o : Option Nat} {x : Nat} {fs : List Nat} :
    x ∈ optDel ans c o fs ↔ x ∈ fs ∧ ¬(o = some x ∧ catCount c ans x = 1) := by
  cases o with
  | none => simp [optDel]
  | some y =>
    simp only [optDel]
    rw [mem_delIfSingle]
    by_cases hxy : x = y
    · subst hxy
      simp
    · constructor
      · rintro ⟨hf, _⟩
        refine ⟨hf, ?_⟩
        rintro ⟨hsome, _⟩
        exact hxy (by injection hsome with h; exact h.symm)
      · rintro ⟨hf, _⟩
        refine ⟨hf, ?_⟩
        rintro ⟨he, _⟩
        exact hxy he

lemma mem_shotsFold (ans : List Analysis) (x : Nat) :
    ∀ (shots : List Nat) (fs : List Nat),
      x ∈ shots.foldl (fun fs s => delIfSingle ans .shot s fs) fs ↔
        x ∈ fs ∧ ¬(x ∈ shots ∧ catCount .shot ans x = 1) := by
  intro shots
  induction shots with
  | nil => intro fs; simp
  | cons s rest ih =>
    intro fs
    rw [List.foldl_cons, ih, mem_delIfSingle]
    constructor
    · rintro ⟨⟨hf, h1⟩, h2⟩
      refine ⟨hf, ?_⟩
      rintro ⟨hm, hc⟩
      rcases List.mem_cons.mp hm with rfl | hr
      · exact h1 ⟨rfl, hc⟩
      · exact h2 ⟨hr, hc⟩
    · rintro ⟨hf, hn⟩
      refine ⟨⟨hf, ?_⟩, ?_⟩
      · rintro ⟨rfl, hc⟩
        exact hn ⟨List.mem_cons_self _ _, hc⟩
      · rintro ⟨hr, hc⟩
        exact hn ⟨List.mem_cons_of_mem _ hr, hc⟩

lemma mem_droppedFold (ans : List Analysis) (x : Nat) :
    ∀ (ds : List (Option Nat)) (fs : List Nat),
      x ∈ ds.foldl (fun fs d => optDel ans .dropped d fs) fs ↔
        x ∈ fs ∧ ¬(some x ∈ ds ∧ catCount .dropped ans x = 1) := by
  intro ds
  induction ds with
  | nil => intro fs; simp
  | cons d rest ih =>
    intro fs
    rw [List.foldl_cons, ih, mem_optDel]
    constructor
    · rintro ⟨⟨hf, h1⟩, h2⟩
      refine ⟨hf, ?_⟩
      rintro ⟨hm, hc⟩
      rcases List.mem_cons.mp hm with heq | hr
      · exact h1 ⟨heq.symm, hc⟩
      · exact h2 ⟨hr, hc⟩
    · rintro ⟨hf, hn⟩
      refine ⟨⟨hf, ?_⟩, ?_⟩
      · rintro ⟨he, hc⟩
        exact hn ⟨he ▸ List.mem_cons_self _ _, hc⟩
      · rintro ⟨hr, hc⟩
        exact hn ⟨List.mem_cons_of_mem _ hr, hc⟩

lemma mem_cleanupOne_fs (st : MongoState) (a : Analysis) (x : Nat) :
    x ∈ (cleanupOne st a).fs ↔
      x ∈ st.fs ∧ ∀ c, ¬(refIn c a x = true ∧ catCount c st.analyses x = 1) := by
  simp only [cleanupOne]
  rw [mem_droppedFold, mem_optDel, mem_optDel, mem_shotsFold, mem_optDel]
  constructor
  · rintro ⟨⟨⟨⟨⟨hf, ht⟩, hs⟩, hp⟩, hsp⟩, hd⟩
    refine ⟨hf, ?_⟩
    intro c
    cases c
    · rintro ⟨hr, hc⟩
      exact ht ⟨by simpa [refIn] using hr, hc⟩
    · rintro ⟨hr, hc⟩
      exact hs ⟨by simpa [refIn] using hr, hc⟩
    · rintro ⟨hr, hc⟩
      exact hp ⟨by simpa [refIn] using hr, hc⟩
    · rintro ⟨hr, hc⟩
      exact hsp ⟨by simpa [refIn] using hr, hc⟩
    · rintro ⟨hr, hc⟩
      exact hd ⟨by simpa [refIn] using hr, hc⟩
  · rintro ⟨hf, hall⟩
    refine ⟨⟨⟨⟨⟨hf, ?_⟩, ?_⟩, ?_⟩, ?_⟩, ?_⟩
    · rintro ⟨he, hc⟩
      exact hall .target ⟨by simp [refIn, he], hc⟩
    · rintro ⟨hm, hc⟩
      exact hall .shot ⟨by simp [refIn, hm], hc⟩
    · rintro ⟨he, hc⟩
      exact hall .pcap ⟨by simp [refIn, he], hc⟩
    · rintro ⟨he, hc⟩
      exact hall .sortedPcap ⟨by simp [refIn, he], hc⟩
    · rintro ⟨hm, hc⟩
      exact hall .dropped ⟨by simp [refIn, hm], hc⟩

lemma mem_removeCallsInner (x : Nat) :
    ∀ (l : List Nat) (cs : List Nat),
      x ∈ l.foldl (fun cs c => cs.filter (fun y => y != c)) cs ↔ x ∈ cs ∧ x ∉ l := by
  intro l
  induction l with
  | nil => intro cs; simp
  | cons c rest ih =>
    intro cs
    rw [List.foldl_cons, ih]
    simp only [List.mem_filter, List.mem_cons, bne_iff_ne]
    constructor
    · rintro ⟨⟨hcs, hne⟩, hr⟩
      exact ⟨hcs, fun h => h.elim hne hr⟩
    · rintro ⟨hcs, hn⟩
      exact ⟨⟨hcs, fun h => hn (Or.inl h)⟩, fun h => hn (Or.inr h)⟩

lemma mem_removeCallsOuter (x : Nat) :
    ∀ (ps : List (List Nat)) (cs : List Nat),
      x ∈ ps.foldl (fun cs pcalls => pcalls.foldl (fun cs c => cs.filter (fun y => y != c)) cs) cs ↔
        x ∈ cs ∧ x ∉ ps.flatten := by
  intro ps
  induction ps with
  | nil => intro cs; simp
  | cons p rest ih =>
    intro cs
    rw [List.foldl_cons, ih, mem_removeCallsInner]
    simp only [List.flatten_cons, List.mem_append]
    constructor
    · rintro ⟨⟨hcs, hp⟩, hr⟩
      exact ⟨hcs, fun h => h.elim hp hr⟩
    · rintro ⟨hcs, hn⟩
      exact ⟨⟨hcs, fun h => hn (Or.inl h)⟩, fun h => hn (Or.inr h)⟩

lemma foldl_cleanup_analyses :
    ∀ (l : List Analysis) (st : MongoState),
      (l.foldl cleanupOne st).analyses =
        st.analyses.filter (fun b => !(l.map (·.mongoId)).contains b.mongoId) := by
  intro l
  induction l with
  | nil =>
    intro st
    simp
  | cons a rest ih =>
    intro st
    rw [List.foldl_cons, ih]
    have hone : (cleanupOne st a).analyses =
        st.analyses.filter (fun b => b.mongoId != a.mongoId) := rfl
    rw [hone, List.filter_filter]
    apply List.filter_congr
    intro b _
    simp only [List.map_cons, List.contains_cons, Bool.not_or, bne]
    rw [Bool.and_comm]

/-- C1.  The blob cleanup: an artifact id x is gone from GridFS after one
analysis record is cleaned iff it was absent already or that record
references it in some slot (target / shot / pcap / sorted pcap / dropped)
whose reference count over the analysis collection — counted at the moment
of the check, i.e. against the collection as it stands when this record is
processed — is exactly one; the record's own call documents and the
record itself are always removed, regardless of sharing; and the full
cleanup for a task leaves no analysis record of that task behind. -/
theorem c1_blob_refcount (st : MongoState) (a : Analysis) (x : Nat) (tid : Nat) :
    (x ∉ (cleanupOne st a).fs ↔
      (x ∉ st.fs ∨ ∃ c, refIn c a x = true ∧ catCount c st.analyses x = 1))
    ∧ (cleanupOne st a).analyses = st.analyses.filter (fun b => b.mongoId != a.mongoId)
    ∧ (∀ cl ∈ callsOf a, cl ∉ (cleanupOne st a).calls)
    ∧ (∀ b ∈ (deleteMongoData tid st).analyses, b.infoId ≠ tid) := by
  have h := mem_cleanupOne_fs st a x
  refine ⟨?_, rfl, ?_, ?_⟩
  · constructor
    · intro hn
      by_cases hf : x ∈ st.fs
      · by_contra hne
        rw [not_or] at hne
        obtain ⟨_, hne2⟩ := hne
        exact hn (h.mpr ⟨hf, fun c hc => hne2 ⟨c, hc⟩⟩)
      · exact Or.inl hf
    · rintro (hf | ⟨c, hr, hc⟩) hmem
      · exact hf (h.mp hmem).1
      · exact (h.mp hmem).2 c ⟨hr, hc⟩
  · intro cl hcl hmem
    exact ((mem_removeCallsOuter cl a.processes st.calls).mp hmem).2 hcl
  · intro b hb hbe
    unfold deleteMongoData at hb
    by_cases hlen : (st.analyses.filter (fun a => a.infoId == tid)).length > 0
    · rw [if_pos hlen] at hb
      rw [foldl_cleanup_analyses] at hb
      obtain ⟨hbmem, hbpred⟩ := List.mem_filter.mp hb
      have hbfound : b ∈ st.analyses.filter (fun a => a.infoId == tid) :=
        List.mem_filter.mpr ⟨hbmem, by simp [hbe]⟩
      have : b.mongoId ∈ (st.analyses.filter (fun a => a.infoId == tid)).map (·.mongoId) :=
        List.mem_map.mpr ⟨b, hbfound, rfl⟩
      have hnotmem : b.mongoId ∉
          (st.analyses.filter (fun a => a.infoId == tid)).map (·.mongoId) := by
        simpa using hbpred
      exact hnotmem this
    · rw [if_neg hlen] at hb
      have hnil : st.analyses.filter (fun a => a.infoId == tid) = [] := by
        cases hf : st.analyses.filter (fun a => a.infoId == tid) with
        | nil => rfl
        | cons y ys => rw [hf] at hlen; simp at hlen
      have : b ∈ st.analyses.filter (fun a => a.infoId == tid) :=
        List.mem_filter.mpr ⟨hb, by simp [hbe]⟩
      rw [hnil] at this
      cases this

/-- Witness for C1 at a concrete state: exA1 shares blob 5 and shot 6 with
exA2 but owns pcap 8 exclusively. -/
theorem c1_witness :
    (8 ∉ (cleanupOne exM exA1).fs ↔
      (8 ∉ exM.fs ∨ ∃ c, refIn c exA1 8 = true ∧ catCount c exM.analyses 8 = 1))
    ∧ (cleanupOne exM exA1).analyses = exM.analyses.filter (fun b => b.mongoId != exA1.mongoId)
    ∧ (∀ cl ∈ callsOf exA1, cl ∉ (cleanupOne exM exA1).calls)
    ∧ (∀ b ∈ (deleteMongoData 7 exM).analyses, b.infoId ≠ 7) :=
  c1_blob_refcount exM exA1 8 7

/-- C10.  Calling the pipeline function process with report=True under the
module's actual (empty) binding of the name task_id raises a NameError and
leaves both the MongoDB state and the task store untouched — in
particular the call never marks the task reported. -/
theorem c10_process_name_error (mongoEnabled commitOk : Bool)
    (mst : MongoState) (ts : OStore) :
    processEmbed moduleTaskId true mongoEnabled commitOk mst ts =
      (some (.nameError "task_id"), mst, ts) := rfl

/- ===================================================================
   Lemmas about the scheduling loop.
   =================================================================== -/

lemma erase_cons_sublist {α : Type} [DecidableEq α] :
    ∀ {p rest : List α} {r : α}, List.Sublist (r :: rest) p → List.Sublist rest (p.erase r) := by
  intro p
  induction p with
  | nil => intro rest r h; cases h
  | cons b p' ih =>
    intro rest r h
    cases h with
    | cons _ h' =>
      by_cases hb : b = r
      · subst hb
        rw [List.erase_cons_head]
        exact (List.sublist_cons_self b rest).trans h'
      · rw [List.erase_cons, if_neg (by simpa using hb)]
        exact (ih h').cons b
    | cons₂ _ h' =>
      rw [List.erase_cons_head]
      exact h'

lemma reapGo_fst_sublist (env : OrchEnv) :
    ∀ (l p : List PendingRec) (db : OStore), List.Sublist (reapGo env l (p, db)).1 p := by
  intro l
  induction l with
  | nil => intro p db; exact List.Sublist.refl p
  | cons r rest ih =>
    intro p db
    simp only [reapGo]
    split
    · exact (ih _ _).trans (List.erase_sublist _ _)
    · exact ih _ _

lemma reapGo_fst_filter (env : OrchEnv) :
    ∀ (l p : List PendingRec) (db : OStore), p.Nodup → List.Sublist l p →
      (reapGo env l (p, db)).1 =
        p.filter (fun x => !(env.ready x.handle && l.contains x)) := by
  intro l
  induction l with
  | nil =>
    intro p db _ _
    simp [reapGo]
  | cons r rest ih =>
    intro p db hnd hsub
    simp only [reapGo]
    split
    · rename_i hready
      rw [ih _ _ (hnd.erase r) (erase_cons_sublist hsub),
        hnd.erase_eq_filter, List.filter_filter]
      apply List.filter_congr
      intro x _
      by_cases hxr : x = r
      · subst hxr
        simp [hready]
      · simp [hxr, List.contains_cons]
    · rename_i hready
      have hready' : env.ready r.handle = false := by
        revert hready
        cases env.ready r.handle <;> simp
      rw [ih _ _ hnd ((List.sublist_cons_self r rest).trans hsub)]
      apply List.filter_congr
      intro x _
      by_cases hxr : x = r
      · subst hxr
        simp [hready', List.contains_cons]
      · simp [hxr, List.contains_cons]

lemma reap_pending (env : OrchEnv) (s : LoopState) (h : s.pending.Nodup) :
    (reap env s).pending = s.pending.filter (fun r => !env.ready r.handle) := by
  show (reapGo env s.pending (s.pending, s.db)).1 = _
  rw [reapGo_fst_filter env s.pending s.pending s.db h (List.Sublist.refl _)]
  apply List.filter_congr
  intro x hx
  have hc : s.pending.contains x = true := by simpa using hx
  rw [hc, Bool.and_true]

lemma reapGo_snd (env : OrchEnv) :
    ∀ (l p : List PendingRec) (db : OStore),
      (reapGo env l (p, db)).2 = dbFoldFail env l db := by
  intro l
  induction l with
  | nil => intro p db; rfl
  | cons r rest ih =>
    intro p db
    by_cases hr : env.ready r.handle = true
    · by_cases hs : env.successful r.handle = true
      · simp only [reapGo, dbFoldFail, List.foldl_cons, hr, hs]
        simp only [if_true, Bool.not_true, Bool.and_false, if_false]
        exact ih _ _
      · have hs' : env.successful r.handle = false := by
          revert hs
          cases env.successful r.handle <;> simp
        simp only [reapGo, dbFoldFail, List.foldl_cons, hr, hs']
        simp only [if_true, Bool.not_false, Bool.and_true, if_false]
        exact ih _ _
    · have hr' : env.ready r.handle = false := by
        revert hr
        cases env.ready r.handle <;> simp
      simp only [reapGo, dbFoldFail, List.foldl_cons, hr']
      simp only [if_false, Bool.false_and]
      exact ih _ _

lemma failSet_cons (env : OrchEnv) (r : PendingRec) (rest : List PendingRec) :
    failSet env (r :: rest) =
      if env.ready r.handle && !env.successful r.handle && env.commitOk r.tid then
        r.tid :: failSet env rest
      else failSet env rest := by
  simp only [failSet, List.filter_cons]
  split
  · simp
  · rfl

lemma dbFoldFail_tasks (env : OrchEnv) :
    ∀ (l : List PendingRec) (db : OStore),
      (dbFoldFail env l db).tasks = db.tasks.map (fun t =>
        if (failSet env l).contains t.id then
          { t with status := TASK_FAILED_PROCESSING }
        else t) := by
  intro l
  induction l with
  | nil => intro db; simp [dbFoldFail, failSet]
  | cons r rest ih =>
    intro db
    have hstep : dbFoldFail env (r :: rest) db =
        dbFoldFail env rest
          (if env.ready r.handle && !env.successful r.handle then
            (setStatus (env.commitOk r.tid) r.tid TASK_FAILED_PROCESSING db).2
          else db) := rfl
    rw [hstep, failSet_cons]
    by_cases hcond : (env.ready r.handle && !env.successful r.handle) = true
    · by_cases hok : env.commitOk r.tid = true
      · rw [if_pos hcond, if_pos (by simp [hcond, hok])]
        have hset : (setStatus (env.commitOk r.tid) r.tid TASK_FAILED_PROCESSING db).2.tasks =
            db.tasks.map (fun t =>
              if t.id == r.tid then { t with status := TASK_FAILED_PROCESSING } else t) := by
          rw [hok]
          rfl
        rw [ih, hset, List.map_map]
        apply List.map_congr_left
        intro t _
        by_cases hid : t.id = r.tid
        · by_cases hmem : (failSet env rest).contains t.id = true
          · simp [Function.comp, hid, hmem, List.contains_cons]
          · simp [Function.comp, hid, hmem, List.contains_cons]
        · by_cases hmem : (failSet env rest).contains t.id = true
          · simp [Function.comp, hid, hmem, List.contains_cons]
          · simp [Function.comp, hid, hmem, List.contains_cons]
      · have hok' : env.commitOk r.tid = false := by
          revert hok
          cases env.commitOk r.tid <;> simp
        rw [if_pos hcond, if_neg (by simp [hok'])]
        have hset : (setStatus (env.commitOk r.tid) r.tid TASK_FAILED_PROCESSING db).2 = db := by
          rw [hok']
          rfl
        rw [hset, ih]
    · have hcond' : (env.ready r.handle && !env.successful r.handle) = false := by
        revert hcond
        cases env.ready r.handle && !env.successful r.handle <;> simp
      rw [if_neg (by simp [hcond']), if_neg (by simp [hcond'])]
      exact ih db

lemma loopIter_count_le (cfg : OrchCfg) (env : OrchEnv) (s : LoopState) :
    (loopIter cfg env s).count ≤ s.count + 1 := by
  simp only [loopIter]
  split
  · exact Nat.le_succ _
  · simp only [submitPhase]
    split
    · exact Nat.le_succ _
    · exact Nat.le_refl _

lemma runLoop_count_le (cfg : OrchCfg) (envs : Nat → OrchEnv) (hmax : 0 < cfg.maxcount) :
    ∀ (m : Nat) (s : LoopState), s.count ≤ cfg.maxcount →
      (runLoop cfg envs m s).count ≤ cfg.maxcount := by
  intro m
  induction m with
  | zero => intro s hs; exact hs
  | succ k ih =>
    intro s hs
    unfold runLoop
    split
    · rename_i hguard
      apply ih
      have hlt : s.count < cfg.maxcount := by
        unfold loopGuard at hguard
        simp only [Bool.or_eq_true, decide_eq_true_eq] at hguard
        rcases hguard with h | h
        · exact h
        · omega
      have := loopIter_count_le cfg (envs k) s
      omega
    · exact hs

/-- C2.  The in-flight invariant: the reap phase, a full loop iteration and
any number of loop passes from the initial state preserve that
pending_results holds at most parallel records and never two records with
the same task id. -/
theorem c2_inflight_invariant (cfg : OrchCfg) :
    (∀ env s, OrchInv cfg s → OrchInv cfg (reap env s))
    ∧ (∀ env s, OrchInv cfg s → OrchInv cfg (loopIter cfg env s))
    ∧ (∀ (envs : Nat → OrchEnv) (db : OStore) (n : Nat),
        OrchInv cfg (runLoop cfg envs n (initState db))) := by
  have hreap : ∀ env s, OrchInv cfg s → OrchInv cfg (reap env s) := by
    intro env s hs
    obtain ⟨hlen, hnd⟩ := hs
    have hsub : List.Sublist (reap env s).pending s.pending :=
      reapGo_fst_sublist env s.pending s.pending s.db
    exact ⟨hsub.length_le.trans hlen, hnd.sublist (hsub.map _)⟩
  have hiter : ∀ env s, OrchInv cfg s → OrchInv cfg (loopIter cfg env s) := by
    intro env s hs
    obtain ⟨hlen1, hnd1⟩ := hreap env s hs
    simp only [loopIter]
    split
    · exact ⟨hlen1, hnd1⟩
    · rename_i hlt
      rw [Nat.not_le] at hlt
      simp only [submitPhase]
      split
      · exact ⟨hlen1, hnd1⟩
      · rename_i t hfind
        have hpred := List.find?_some hfind
        have hnin : t.id ∉ (reap env s).pending.map (·.tid) := by
          simpa using hpred
        constructor
        · simp only [List.length_append, List.length_singleton]
          omega
        · rw [List.map_append, List.nodup_append]
          refine ⟨hnd1, List.nodup_singleton _, ?_⟩
          intro x hxmem hxsingle
          simp only [List.map_cons, List.map_nil, List.mem_singleton] at hxsingle
          subst hxsingle
          exact hnin hxmem
  refine ⟨hreap, hiter, ?_⟩
  intro envs db n
  have hrun : ∀ (m : Nat) (s : LoopState), OrchInv cfg s → OrchInv cfg (runLoop cfg envs m s) := by
    intro m
    induction m with
    | zero => intro s hs; exact hs
    | succ k ih =>
      intro s hs
      unfold runLoop
      split
      · exact ih _ (hiter _ _ hs)
      · exact hs
  exact hrun n _ ⟨Nat.zero_le _, List.nodup_nil⟩

/-- Witness for C2: the invariant after three loop passes over the
concrete one-task store. -/
theorem c2_witness :
    OrchInv exOrchCfg (runLoop exOrchCfg (fun _ => exOrchEnv) 3 (initState exOrchDb)) :=
  (c2_inflight_invariant exOrchCfg).2.2 (fun _ => exOrchEnv) exOrchDb 3

/-- C3.  One loop iteration submits at most one task (count grows by at
most one), and with maxcount > 0 the total number of submissions over any
run from the initial state never exceeds maxcount. -/
theorem c3_submission_cap (cfg : OrchCfg) (envs : Nat → OrchEnv) (db : OStore) (n : Nat)
    (hmax : 0 < cfg.maxcount) :
    (∀ env s, (loopIter cfg env s).count ≤ s.count + 1)
    ∧ (runLoop cfg envs n (initState db)).count ≤ cfg.maxcount :=
  ⟨fun env s => loopIter_count_le cfg env s,
    runLoop_count_le cfg envs hmax n (initState db) (Nat.zero_le _)⟩

/-- Witness for C3 at the concrete run. -/
theorem c3_witness :
    0 < exOrchCfg.maxcount
    ∧ (runLoop exOrchCfg (fun _ => exOrchEnv) 2 (initState exOrchDb)).count ≤
        exOrchCfg.maxcount :=
  ⟨by decide, (c3_submission_cap exOrchCfg (fun _ => exOrchEnv) exOrchDb 2 (by decide)).2⟩

/-- C4.  The reap phase: a ready, unsuccessful in-flight record (whose
status commit succeeds) has its task force-set to failed_processing and is
removed from pending_results; ready records are removed regardless of
outcome, not-ready records stay; and every task whose id is not among the
failed ones keeps its record in the store untouched. -/
theorem c4_reap_failure (env : OrchEnv) (s : LoopState)
    (hnd : (s.pending.map (·.tid)).Nodup) (r : PendingRec) (hr : r ∈ s.pending)
    (hready : env.ready r.handle = true) (hfail : env.successful r.handle = false)
    (hok : env.commitOk r.tid = true) :
    r ∉ (reap env s).pending
    ∧ (∀ t ∈ (reap env s).db.tasks, t.id = r.tid → t.status = TASK_FAILED_PROCESSING)
    ∧ (∀ r' ∈ s.pending, env.ready r'.handle = true → r' ∉ (reap env s).pending)
    ∧ (∀ r' ∈ s.pending, env.ready r'.handle = false → r' ∈ (reap env s).pending)
    ∧ (∀ t ∈ s.db.tasks, ¬(failSet env s.pending).contains t.id = true →
        t ∈ (reap env s).db.tasks) := by
  have hndrec : s.pending.Nodup := List.Nodup.of_map _ hnd
  have hpend := reap_pending env s hndrec
  have hdb : (reap env s).db = dbFoldFail env s.pending s.db :=
    reapGo_snd env s.pending s.pending s.db
  have htasks := dbFoldFail_tasks env s.pending s.db
  have hrtid : (failSet env s.pending).contains r.tid = true := by
    have hrf : r ∈ s.pending.filter
        (fun x => env.ready x.handle && !env.successful x.handle && env.commitOk x.tid) :=
      List.mem_filter.mpr ⟨hr, by simp [hready, hfail, hok]⟩
    have : r.tid ∈ failSet env s.pending := List.mem_map.mpr ⟨r, hrf, rfl⟩
    simpa using this
  refine ⟨?_, ?_, ?_, ?_, ?_⟩
  · rw [hpend]
    intro hmem
    have := (List.mem_filter.mp hmem).2
    simp [hready] at this
  · intro t ht htid
    rw [hdb, htasks] at ht
    obtain ⟨w, hw, rfl⟩ := List.mem_map.mp ht
    have hidw : (if (failSet env s.pending).contains w.id then
        { w with status := TASK_FAILED_PROCESSING } else w).id = w.id := by
      split <;> rfl
    rw [hidw] at htid
    by_cases hmem : (failSet env s.pending).contains w.id = true
    · rw [if_pos hmem]
    · exact absurd (htid ▸ hrtid) hmem
  · intro r' _ hready'
    rw [hpend]
    intro hmem
    have := (List.mem_filter.mp hmem).2
    simp [hready'] at this
  · intro r' hr' hnready
    rw [hpend]
    exact List.mem_filter.mpr ⟨hr', by simp [hnready]⟩
  · intro t ht hnc
    rw [hdb, htasks]
    refine List.mem_map.mpr ⟨t, ht, ?_⟩
    rw [if_neg hnc]

/-- Witness for C4: the single ready-and-failed record is reaped and its
task marked failed_processing. -/
theorem c4_witness :
    (c4state.pending.map (·.tid)).Nodup
    ∧ c4rec ∉ (reap c4env c4state).pending
    ∧ (∀ t ∈ (reap c4env c4state).db.tasks, t.id = c4rec.tid →
        t.status = TASK_FAILED_PROCESSING) :=
  ⟨by decide,
    (c4_reap_failure c4env c4state (by decide) c4rec (by decide) rfl rfl rfl).1,
    (c4_reap_failure c4env c4state (by decide) c4rec (by decide) rfl rfl rfl).2.1⟩

/-- C5 counterexample.  With maxcount = 1 and parallel = 1 over a store
holding one completed task, under an environment whose handle never
becomes ready, the loop condition turns false after the first submission
(the guard only checks count) while that submission is still in flight:
the loop exits with a nonempty pending_results, refuting "the loop does
not exit while a submission is still outstanding". -/
theorem c5_counterexample :
    loopGuard exOrchCfg (runLoop exOrchCfg (fun _ => exOrchEnv) 2 (initState exOrchDb)) = false
    ∧ (runLoop exOrchCfg (fun _ => exOrchEnv) 2 (initState exOrchDb)).pending ≠ [] := by
  decide

/-- C5 as amended.  With maxcount > 0 and no cancellation the loop exits
exactly when the submission count has reached maxcount — the in-flight set
is not part of the exit condition (and may be nonempty at exit, see the
counterexample) — and at exit the count equals maxcount exactly. -/
theorem c5_exit_condition (cfg : OrchCfg) (envs : Nat → OrchEnv) (db : OStore) (n : Nat)
    (hmax : 0 < cfg.maxcount) :
    (loopGuard cfg (runLoop cfg envs n (initState db)) = false ↔
      cfg.maxcount ≤ (runLoop cfg envs n (initState db)).count)
    ∧ (loopGuard cfg (runLoop cfg envs n (initState db)) = false →
      (runLoop cfg envs n (initState db)).count = cfg.maxcount) := by
  have hle := runLoop_count_le cfg envs hmax n (initState db) (Nat.zero_le _)
  have hiff : loopGuard cfg (runLoop cfg envs n (initState db)) = false ↔
      cfg.maxcount ≤ (runLoop cfg envs n (initState db)).count := by
    unfold loopGuard
    constructor
    · intro h
      simp only [Bool.or_eq_false_iff, decide_eq_false_iff_not] at h
      omega
    · intro h
      simp only [Bool.or_eq_false_iff, decide_eq_false_iff_not]
      omega
  refine ⟨hiff, ?_⟩
  intro hfalse
  exact Nat.le_antisymm hle (hiff.mp hfalse)

/-- Witness for C5 (amended) at the concrete run. -/
theorem c5_witness :
    0 < exOrchCfg.maxcount
    ∧ (loopGuard exOrchCfg (runLoop exOrchCfg (fun _ => exOrchEnv) 2 (initState exOrchDb)) =
          false →
        (runLoop exOrchCfg (fun _ => exOrchEnv) 2 (initState exOrchDb)).count =
          exOrchCfg.maxcount) :=
  ⟨by decide, (c5_exit_condition exOrchCfg (fun _ => exOrchEnv) exOrchDb 2 (by decide)).2⟩
